import Mathlib

/-
Shallow embedding of the corpus_parsing_scripts repository (four standalone
Python ETL scripts) and proofs about the claims of its specification.

Conventions used throughout:
* machine text is modelled as a list of Unicode codepoints (`List Nat`);
  the character classes of the Python regexes and of `string.punctuation`
  are modelled on their ASCII ranges;
* fallible Python code (exceptions) is modelled with `Except PyErr`/`Option`;
* pandas DataFrames are modelled as Lean lists of rows.
-/

/-- Kinds of Python exceptions raised by the scripts. -/
inductive PyErr where
  | indexError
  | keyError
  | valueError
  | attributeError
  deriving DecidableEq, Repr

/-- Sequential fallible map: a Python loop over a list whose body may raise,
stopping at the first raised exception. -/
def mapExcept {α β : Type} (f : α → Except PyErr β) : List α → Except PyErr (List β)
  | [] => Except.ok []
  | a :: rest =>
    match f a with
    | Except.error e => Except.error e
    | Except.ok b =>
      match mapExcept f rest with
      | Except.error e => Except.error e
      | Except.ok bs => Except.ok (b :: bs)

/-- True exactly when a fallible computation finished without raising. -/
def pySucceeds {α : Type} : Except PyErr α → Bool
  | Except.ok _ => true
  | Except.error _ => false

namespace ParseSst

/-- Embedding of `calc_sst_sentiment_label` from parse_sst.py: negative
sentiment is 0, neutral is 1, positive is 2, with thresholds 0.4 and 0.6.
The continuous sentiment value is modelled as a rational. -/
def calc_sst_sentiment_label (val : ℚ) : Int :=
  if val ≤ 0.4 then 0
  else if val ≤ 0.6 then 1
  else 2

/-- Embedding of `calc_sst_sentiment_exists_label` from parse_sst.py:
no sentiment ("neutral") is 0, some sentiment is 1. -/
def calc_sst_sentiment_exists_label (val : ℚ) : Int :=
  if 0.4 < val ∧ val ≤ 0.6 then 0 else 1

/-- ASCII model of the `\w` character class of the Python regex
`[^\w\s]+` used on the phrase column: digits, letters, underscore. -/
def isWordCode (c : Nat) : Bool :=
  (48 ≤ c ∧ c ≤ 57) ∨ (65 ≤ c ∧ c ≤ 90) ∨ (97 ≤ c ∧ c ≤ 122) ∨ c = 95

/-- ASCII model of the `\s` character class (also the separators of
`str.split`): space, tab, linefeed, vertical tab, formfeed, carriage return. -/
def isSpaceCode (c : Nat) : Bool :=
  c = 32 ∨ c = 9 ∨ c = 10 ∨ c = 11 ∨ c = 12 ∨ c = 13

/-- Codepoints surviving the replacement of `[^\w\s]+` by the empty string:
word characters and whitespace. -/
def keepCode (c : Nat) : Bool := isWordCode c || isSpaceCode c

/-- ASCII model of `str.lower` on a single codepoint. -/
def lowerCode (c : Nat) : Nat :=
  if 65 ≤ c ∧ c ≤ 90 then c + 32 else c

/-- Accumulator-based splitting on whitespace runs, the behaviour of
Python `str.split()` with no argument: no empty words are produced. -/
def split_words_aux : List Nat → List Nat → List (List Nat)
  | [], acc => if acc.isEmpty then [] else [acc.reverse]
  | c :: rest, acc =>
    if isSpaceCode c then
      if acc.isEmpty then split_words_aux rest []
      else acc.reverse :: split_words_aux rest []
    else split_words_aux rest (c :: acc)

/-- Embedding of `str.split()`. -/
def split_words (l : List Nat) : List (List Nat) := split_words_aux l []

/-- Embedding of `' '.join`: interleave a single space (codepoint 32)
between consecutive words. -/
def join_words : List (List Nat) → List Nat
  | [] => []
  | [w] => w
  | w :: ws => w ++ 32 :: join_words ws

/-- Embedding of the phrase normalization applied in `process_sst_data`
(parse_sst.py lines 35-36): remove characters that are neither word
characters nor whitespace, lowercase, then split on whitespace and
re-join with single spaces. -/
def normalize_phrase (l : List Nat) : List Nat :=
  join_words (split_words ((l.filter keepCode).map lowerCode))

end ParseSst

namespace ParseSocc

/-- Does the pattern occur at the very start of the text. -/
def matchesAt : List Nat → List Nat → Bool
  | [], _ => true
  | _ :: _, [] => false
  | p :: ps, c :: cs => p == c && matchesAt ps cs

/-- Fuelled left-to-right non-overlapping substring replacement, the
behaviour of Python `str.replace`: at each position, if the pattern matches
there, emit the replacement and skip past the match, otherwise keep the
character. The fuel is an upper bound on the number of scan steps; callers
pass the text length, which suffices for the non-empty patterns used here. -/
def replace_all_aux (pat rep : List Nat) : Nat → List Nat → List Nat
  | _, [] => []
  | 0, l => l
  | fuel + 1, c :: rest =>
    if matchesAt pat (c :: rest) then
      rep ++ replace_all_aux pat rep fuel ((c :: rest).drop pat.length)
    else
      c :: replace_all_aux pat rep fuel rest

/-- Embedding of Python `text.replace(pat, rep)` on codepoint lists. -/
def replace_all (pat rep l : List Nat) : List Nat :=
  replace_all_aux pat rep l.length l

/-- ASCII codepoints of Python `string.punctuation`
(`!"#$%&'()*+,-./:;<=>?@[\]^_` + backtick + `{|}~`). -/
def isPunctCode (c : Nat) : Bool :=
  (33 ≤ c ∧ c ≤ 47) ∨ (58 ≤ c ∧ c ≤ 64) ∨ (91 ≤ c ∧ c ≤ 96) ∨ (123 ≤ c ∧ c ≤ 126)

/-- Codepoints of the literal opening paragraph tag. -/
def pOpen : List Nat := [60, 112, 62]

/-- Codepoints of the literal closing paragraph tag. -/
def pClose : List Nat := [60, 47, 112, 62]

/-- Embedding of the article-text cleanup in `extract_socc_data`
(parse_socc.py lines 26-28): remove every opening paragraph tag, replace
every closing paragraph tag by a single space (codepoint 32), then delete
every punctuation character via `str.translate`. -/
def clean_article_text (l : List Nat) : List Nat :=
  (replace_all pClose [32] (replace_all pOpen [] l)).filter (fun c => !isPunctCode c)

/-- Codepoints of the sample article text from the specification. -/
def soccSampleInput : List Nat :=
  [60, 112, 62, 72, 101, 108, 108, 111, 60, 47, 112, 62, 32, 87, 111, 114, 108, 100, 33]

/-- Codepoints of the expected cleaned text, with two spaces between the
words and the exclamation mark removed. -/
def soccSampleOutput : List Nat :=
  [72, 101, 108, 108, 111, 32, 32, 87, 111, 114, 108, 100]

end ParseSocc

namespace Db

/-- Operations performed on a SQLite connection by the save functions. -/
inductive DbOp where
  | connect
  | toSql (table : String) (replaceExisting : Bool)
  | commit
  | close
  deriving DecidableEq, Repr

end Db

namespace ParseSst

/-- Embedding of `save_phrases` from parse_sst.py: straight-line code with
no try/finally and no context manager. The Boolean parameter says whether
the `to_sql` write succeeds; the result is the trace of connection
operations executed (the write itself is recorded as attempted) together
with the outcome. When the write raises, the remaining statements — commit
and close — are never executed. -/
def save_phrases_run (writeOk : Bool) : List Db.DbOp × Except PyErr Unit :=
  if writeOk then
    ([Db.DbOp.connect, Db.DbOp.toSql ("sst_phrases") true, Db.DbOp.commit, Db.DbOp.close],
      Except.ok ())
  else
    ([Db.DbOp.connect, Db.DbOp.toSql ("sst_phrases") true], Except.error PyErr.valueError)

end ParseSst

namespace ParseRestaurant

/-- Embedding of `save_reviews` from parse_restaurantreviews.py, with the
same straight-line connect / to_sql / commit / close shape as
`ParseSst.save_phrases_run`. -/
def save_reviews_run (writeOk : Bool) : List Db.DbOp × Except PyErr Unit :=
  if writeOk then
    ([Db.DbOp.connect, Db.DbOp.toSql ("restaurantreviews_reviews") true,
      Db.DbOp.commit, Db.DbOp.close], Except.ok ())
  else
    ([Db.DbOp.connect, Db.DbOp.toSql ("restaurantreviews_reviews") true],
      Except.error PyErr.valueError)

end ParseRestaurant

namespace ParseSemeval

/-- Embedding of `save_opinion_data` from parse_semeval16.py, with the same
straight-line connect / to_sql / commit / close shape as
`ParseSst.save_phrases_run`. -/
def save_opinion_data_run (writeOk : Bool) : List Db.DbOp × Except PyErr Unit :=
  if writeOk then
    ([Db.DbOp.connect, Db.DbOp.toSql ("semeval16_opinion_data") true,
      Db.DbOp.commit, Db.DbOp.close], Except.ok ())
  else
    ([Db.DbOp.connect, Db.DbOp.toSql ("semeval16_opinion_data") true],
      Except.error PyErr.valueError)

end ParseSemeval

namespace ParseRestaurant

/-- XML element of the Restaurant Reviews corpus: a tag name, optional
text content, and child elements. -/
inductive RXml where
  | mk (tag : String) (text : Option String) (children : List RXml)

/-- Tag name of an element. -/
def RXml.tag : RXml → String
  | .mk t _ _ => t

/-- Text content of an element, `None` when absent. -/
def RXml.text : RXml → Option String
  | .mk _ s _ => s

/-- Child elements of an element. -/
def RXml.children : RXml → List RXml
  | .mk _ _ c => c

/-- Embedding of `Element.find`: the first direct child with the given tag. -/
def findTag (e : RXml) (t : String) : Option RXml :=
  e.children.find? (fun c => c.tag == t)

/-- One row of the restaurantreviews_reviews table. Text contents are kept
as optional strings, as `.text` of an empty XML element is `None`. -/
structure ReviewRow where
  review : Option String
  rating : Option String
  pro_tags : Option String
  con_tags : Option String
  id : String
  restaurant_name : String
  deriving DecidableEq, Repr

/-- Embedding of the loop body of `_extract_review_data` (lines 90-98):
look up the Body, Rating, Pros and Cons sub-elements of one review element
and read their text; a missing sub-element raises AttributeError
(`.text` on `None`). -/
def extract_review_row (restaurant_id restaurant_name : String) (review_data : RXml) :
    Except PyErr ReviewRow :=
  match findTag review_data ("Body"), findTag review_data ("Rating"),
      findTag review_data ("Pros"), findTag review_data ("Cons") with
  | some b, some r, some p, some c =>
    Except.ok { review := b.text, rating := r.text, pro_tags := p.text,
                con_tags := c.text, id := restaurant_id,
                restaurant_name := restaurant_name }
  | _, _, _, _ => Except.error PyErr.attributeError

/-- Embedding of `_extract_review_data`: one row per direct child of the
file's reviews container, with the restaurant id and name repeated on
every row. -/
def extract_review_data (restaurant_data : RXml × String × String) :
    Except PyErr (List ReviewRow) :=
  mapExcept (extract_review_row restaurant_data.2.1 restaurant_data.2.2)
    restaurant_data.1.children

/-- Embedding of `extract_all_review_data`: extract every file and
concatenate the per-file tables; `pd.concat` raises on an empty list of
tables. -/
def extract_all_review_data (xml_data : List (RXml × String × String)) :
    Except PyErr (List ReviewRow) :=
  match xml_data with
  | [] => Except.error PyErr.valueError
  | _ :: _ =>
    match mapExcept extract_review_data xml_data with
    | Except.error e => Except.error e
    | Except.ok tables => Except.ok tables.flatten

/-- First-occurrence deduplication by the first component, with the set of
already-seen identifiers as accumulator. -/
def dedup_by_id_aux (seen : List String) : List (String × String) → List (String × String)
  | [] => []
  | r :: rest =>
    if r.1 ∈ seen then dedup_by_id_aux seen rest
    else r :: dedup_by_id_aux (r.1 :: seen) rest

/-- Embedding of `drop_duplicates(subset="id")` on the id/name projection:
keep the first row for each distinct identifier. -/
def drop_duplicates_by_id (rows : List (String × String)) : List (String × String) :=
  dedup_by_id_aux [] rows

/-- The id/name table persisted by `save_restaurants`. -/
def restaurants_table (rows : List ReviewRow) : List (String × String) :=
  drop_duplicates_by_id (rows.map (fun r => (r.id, r.restaurant_name)))

/-- The id column of the table persisted by `save_reviews`. -/
def reviews_table_ids (rows : List ReviewRow) : List String :=
  rows.map (fun r => r.id)

/-- Sample review element of the end-to-end scenario of the specification. -/
def cafeReview (body : String) : RXml :=
  RXml.mk ("Review") none
    [RXml.mk ("Body") (some body) [],
     RXml.mk ("Rating") (some ("5")) [],
     RXml.mk ("Pros") (some ("tasty")) [],
     RXml.mk ("Cons") (some ("slow")) []]

/-- Sample parsed file of the end-to-end scenario: a reviews container with
two review elements, restaurant id R1, restaurant name Cafe. -/
def cafeFile : RXml × String × String :=
  (RXml.mk ("Reviews") none [cafeReview ("Nice place"), cafeReview ("Came back")],
   ("R1"), ("Cafe"))

/-- The two review rows the scenario should extract. -/
def cafeRows : List ReviewRow :=
  [{ review := some ("Nice place"), rating := some ("5"), pro_tags := some ("tasty"),
     con_tags := some ("slow"), id := ("R1"), restaurant_name := ("Cafe") },
   { review := some ("Came back"), rating := some ("5"), pro_tags := some ("tasty"),
     con_tags := some ("slow"), id := ("R1"), restaurant_name := ("Cafe") }]

/-- Sample rows for the deduplication invariant: two restaurants, one of
them reviewed twice. -/
def demoRestaurantRows : List ReviewRow :=
  [{ review := some ("a"), rating := none, pro_tags := none, con_tags := none,
     id := ("A"), restaurant_name := ("Alpha") },
   { review := some ("b"), rating := none, pro_tags := none, con_tags := none,
     id := ("A"), restaurant_name := ("Alpha") },
   { review := some ("c"), rating := none, pro_tags := none, con_tags := none,
     id := ("B"), restaurant_name := ("Beta") }]

end ParseRestaurant

namespace ParseSemeval

/-- XML element of the SemEval16 ABSA file: optional text content, an
attribute dictionary, and child elements. -/
inductive XElem where
  | mk (text : Option String) (attrib : List (String × String)) (children : List XElem)

/-- Text content of an element. -/
def XElem.text : XElem → Option String
  | .mk t _ _ => t

/-- Attribute dictionary of an element. -/
def XElem.attrib : XElem → List (String × String)
  | .mk _ a _ => a

/-- Child elements of an element. -/
def XElem.children : XElem → List XElem
  | .mk _ _ c => c

/-- Value of an attribute key in an attribute dictionary. -/
def lookupAttr (a : List (String × String)) (k : String) : Option String :=
  (a.find? (fun p => p.1 == k)).map Prod.snd

/-- Numeric value of a decimal digit codepoint. -/
def digitVal? (c : Char) : Option Nat :=
  if 48 ≤ c.toNat ∧ c.toNat ≤ 57 then some (c.toNat - 48) else none

/-- Accumulating decimal parse of a digit sequence; fails on any
non-digit. -/
def parseNatDigits : List Char → Nat → Option Nat
  | [], acc => some acc
  | c :: cs, acc =>
    match digitVal? c with
    | none => none
    | some d => parseNatDigits cs (acc * 10 + d)

/-- Model of Python `int(s)` as used by `astype(int)` on the offset
attributes: an optional minus sign followed by at least one decimal
digit. -/
def str_to_int (s : String) : Option Int :=
  match s.data with
  | [] => none
  | '-' :: cs =>
    if cs.isEmpty then none
    else (parseNatDigits cs 0).map (fun n => -(n : Int))
  | cs => (parseNatDigits cs 0).map (fun n => (n : Int))

/-- One row of a per-sentence opinion DataFrame: the raw attribute
dictionary of the opinion node plus the from/to offsets cast to integers. -/
structure OpinionRow where
  attrib : List (String × String)
  fromCol : Int
  toCol : Int
  deriving DecidableEq, Repr

/-- Embedding of building the per-sentence opinion DataFrame and casting
its from/to columns (parse_semeval16.py lines 58-60). An empty opinions
container yields a DataFrame with no columns, so selecting the from column
raises KeyError; a missing or non-integer from/to attribute on any opinion
makes the cast raise. -/
def extract_opinions (ops : List XElem) : Except PyErr (List OpinionRow) :=
  match ops with
  | [] => Except.error PyErr.keyError
  | _ :: _ =>
    mapExcept (fun o =>
      match lookupAttr o.attrib ("from"), lookupAttr o.attrib ("to") with
      | some fs, some ts =>
        match str_to_int fs, str_to_int ts with
        | some fv, some tv =>
          Except.ok { attrib := o.attrib, fromCol := fv, toCol := tv }
        | _, _ => Except.error PyErr.valueError
      | _, _ => Except.error PyErr.keyError) ops

/-- Embedding of the loop of `_extract_data` (lines 53-63) over the
sentence elements: a sentence with at most one child is skipped
(`if len(r) <= 1: continue`); otherwise the sentence's first child provides
the review text (`r[0].text`) and its second child is taken as the opinions
container (`r[1]`). -/
def extract_sentences : List XElem → Except PyErr (List (Option String × List OpinionRow))
  | [] => Except.ok []
  | r :: rest =>
    match r.children with
    | [] => extract_sentences rest
    | [_] => extract_sentences rest
    | c0 :: c1 :: _ =>
      match extract_opinions c1.children with
      | Except.error e => Except.error e
      | Except.ok ops =>
        match extract_sentences rest with
        | Except.error e => Except.error e
        | Except.ok tail => Except.ok ((c0.text, ops) :: tail)

/-- Embedding of `_extract_data`: iterate over the children of the
element's first child (`xml_review[0]`, the sentences container); an
element with no children raises IndexError. -/
def extract_data (xml_review : XElem) :
    Except PyErr (List (Option String × List OpinionRow)) :=
  match xml_review.children with
  | [] => Except.error PyErr.indexError
  | sc :: _ => extract_sentences sc.children

/-- Embedding of `extract_all_data`: extract every top-level element and
concatenate the per-element review tables; `pd.concat` raises on an empty
list of tables. -/
def extract_all_data (xml_reviews : List XElem) :
    Except PyErr (List (Option String × List OpinionRow)) :=
  match xml_reviews with
  | [] => Except.error PyErr.valueError
  | _ :: _ =>
    match mapExcept extract_data xml_reviews with
    | Except.error e => Except.error e
    | Except.ok dfs => Except.ok dfs.flatten

/-- One row of the flattened opinion table: the opinion data plus the
0-based position of its review in the surviving review sequence. -/
structure FlatOpinionRow where
  attrib : List (String × String)
  fromCol : Int
  toCol : Int
  review_idx : Nat
  deriving DecidableEq, Repr

/-- Tag each review's opinion rows with that review's position, counting
from the given starting index, and concatenate in review order. -/
def flatten_aux : Nat → List (Option String × List OpinionRow) → List FlatOpinionRow
  | _, [] => []
  | i, p :: rest =>
    (p.2.map (fun o =>
        { attrib := o.attrib, fromCol := o.fromCol, toCol := o.toCol, review_idx := i }))
      ++ flatten_aux (i + 1) rest

/-- Embedding of `flatten_dataframe`: tag each opinion row with its
review's 0-based position and concatenate all per-review opinion tables;
`pd.concat` raises when there are no reviews at all. -/
def flatten_dataframe (df : List (Option String × List OpinionRow)) :
    Except PyErr (List FlatOpinionRow) :=
  match df with
  | [] => Except.error PyErr.valueError
  | _ :: _ => Except.ok (flatten_aux 0 df)

/-- Sample opinion node: a food target with offsets 5 to 10. -/
def demoOpinion : XElem :=
  XElem.mk none [("target", "food"), ("polarity", "positive"),
    ("from", "5"), ("to", "10")] []

/-- Sample sentence text element. -/
def demoTextElem : XElem :=
  XElem.mk (some ("Great food.")) [] []

/-- Sample sentence whose opinions container has exactly one child. -/
def demoSentenceOne : XElem :=
  XElem.mk none [] [demoTextElem, XElem.mk none [] [demoOpinion]]

/-- Sample top-level element: a sentences container holding the
one-opinion sentence. -/
def demoElemOne : XElem :=
  XElem.mk none [] [XElem.mk none [] [demoSentenceOne]]

/-- The opinion row extracted from the sample opinion node. -/
def demoOpinionRowOne : OpinionRow :=
  { attrib := [("target", "food"), ("polarity", "positive"),
      ("from", "5"), ("to", "10")],
    fromCol := 5, toCol := 10 }

/-- The review table extracted from the sample element. -/
def demoReviews : List (Option String × List OpinionRow) :=
  [(some ("Great food."), [demoOpinionRowOne])]

/-- The flattened row produced for the sample opinion, referencing
review 0. -/
def demoFlatRow : FlatOpinionRow :=
  { attrib := [("target", "food"), ("polarity", "positive"),
      ("from", "5"), ("to", "10")],
    fromCol := 5, toCol := 10, review_idx := 0 }

/-- The flattened opinion table of the sample element. -/
def demoFlat : List FlatOpinionRow := [demoFlatRow]

/-- Sample sentence with two children whose opinions container is empty. -/
def demoSentenceEmptyOps : XElem :=
  XElem.mk none [] [demoTextElem, XElem.mk none [] []]

/-- Sample top-level element holding the empty-opinions sentence. -/
def demoElemEmptyOps : XElem :=
  XElem.mk none [] [XElem.mk none [] [demoSentenceEmptyOps]]

end ParseSemeval

/- ===================== THEOREMS ===================== -/

namespace ParseSst

theorem split_words_aux_nil (acc : List Nat) :
    split_words_aux [] acc = if acc.isEmpty then [] else [acc.reverse] := rfl

theorem split_words_aux_cons (c : Nat) (rest acc : List Nat) :
    split_words_aux (c :: rest) acc =
      if isSpaceCode c then
        if acc.isEmpty then split_words_aux rest []
        else acc.reverse :: split_words_aux rest []
      else split_words_aux rest (c :: acc) := rfl

theorem lowerCode_idem (c : Nat) : lowerCode (lowerCode c) = lowerCode c := by
  unfold lowerCode
  split
  · split
    · omega
    · rfl
  · rfl

theorem keepCode_lowerCode {c : Nat} (h : keepCode c = true) :
    keepCode (lowerCode c) = true := by
  simp only [keepCode, isWordCode, isSpaceCode, lowerCode, Bool.or_eq_true,
    decide_eq_true_eq] at *
  split
  · left
    omega
  · exact h

theorem isSpaceCode_space : isSpaceCode 32 = true := by decide

theorem lowerCode_space : lowerCode 32 = 32 := by decide

theorem keepCode_space : keepCode 32 = true := by decide

theorem split_words_aux_sound :
    ∀ (l acc : List Nat), (∀ c ∈ acc, isSpaceCode c = false) →
      ∀ w ∈ split_words_aux l acc,
        w ≠ [] ∧ ∀ c ∈ w, isSpaceCode c = false := by
  intro l
  induction l with
  | nil =>
    intro acc hacc w hw
    unfold split_words_aux at hw
    split at hw
    · simp at hw
    · rename_i hne
      simp only [List.mem_singleton] at hw
      subst hw
      constructor
      · simp only [ne_eq, List.reverse_eq_nil_iff]
        simpa [List.isEmpty_iff] using hne
      · intro c hc
        exact hacc c (List.mem_reverse.mp hc)
  | cons c rest ih =>
    intro acc hacc w hw
    unfold split_words_aux at hw
    split at hw
    · split at hw
      · exact ih [] (by simp) w hw
      · rename_i hne
        rcases List.mem_cons.mp hw with h | h
        · subst h
          constructor
          · simp only [ne_eq, List.reverse_eq_nil_iff]
            simpa [List.isEmpty_iff] using hne
          · intro x hx
            exact hacc x (List.mem_reverse.mp hx)
        · exact ih [] (by simp) w h
    · rename_i hcs
      refine ih (c :: acc) ?_ w hw
      intro x hx
      rcases List.mem_cons.mp hx with h | h
      · subst h
        simpa using hcs
      · exact hacc x h

theorem split_words_aux_subset :
    ∀ (l acc : List Nat) (w : List Nat), w ∈ split_words_aux l acc →
      ∀ c ∈ w, c ∈ l ∨ c ∈ acc := by
  intro l
  induction l with
  | nil =>
    intro acc w hw c hc
    unfold split_words_aux at hw
    split at hw
    · simp at hw
    · simp only [List.mem_singleton] at hw
      subst hw
      exact Or.inr (List.mem_reverse.mp hc)
  | cons a rest ih =>
    intro acc w hw c hc
    unfold split_words_aux at hw
    split at hw
    · split at hw
      · rcases ih [] w hw c hc with h | h
        · exact Or.inl (List.mem_cons_of_mem a h)
        · simp at h
      · rcases List.mem_cons.mp hw with h | h
        · subst h
          exact Or.inr (List.mem_reverse.mp hc)
        · rcases ih [] w h c hc with h2 | h2
          · exact Or.inl (List.mem_cons_of_mem a h2)
          · simp at h2
    · rcases ih (a :: acc) w hw c hc with h | h
      · exact Or.inl (List.mem_cons_of_mem a h)
      · rcases List.mem_cons.mp h with h2 | h2
        · exact Or.inl (h2 ▸ List.mem_cons_self a rest)
        · exact Or.inr h2

theorem split_words_aux_append_word :
    ∀ (w l acc : List Nat), (∀ c ∈ w, isSpaceCode c = false) →
      split_words_aux (w ++ l) acc = split_words_aux l (w.reverse ++ acc) := by
  intro w
  induction w with
  | nil => intro l acc _; simp
  | cons c w' ih =>
    intro l acc hw
    have hc : isSpaceCode c = false := hw c (List.mem_cons_self c w')
    have hw' : ∀ x ∈ w', isSpaceCode x = false :=
      fun x hx => hw x (List.mem_cons_of_mem c hx)
    simp only [List.cons_append]
    rw [split_words_aux_cons, hc]
    simp only [Bool.false_eq_true, if_false]
    rw [ih l (c :: acc) hw']
    simp [List.append_assoc]

theorem split_words_aux_space (l : List Nat) (acc : List Nat) :
    split_words_aux (32 :: l) acc =
      if acc.isEmpty then split_words_aux l []
      else acc.reverse :: split_words_aux l [] := by
  rw [split_words_aux_cons, isSpaceCode_space]
  simp

theorem split_join (ws : List (List Nat))
    (h : ∀ w ∈ ws, w ≠ [] ∧ ∀ c ∈ w, isSpaceCode c = false) :
    split_words (join_words ws) = ws := by
  induction ws with
  | nil => rfl
  | cons w ws ih =>
    cases ws with
    | nil =>
      obtain ⟨hne, hns⟩ := h w (List.mem_cons_self w [])
      show split_words_aux (join_words [w]) [] = [w]
      unfold join_words
      have : split_words_aux (w ++ []) [] = split_words_aux [] (w.reverse ++ []) :=
        split_words_aux_append_word w [] [] hns
      simp only [List.append_nil] at this
      rw [show w = w ++ [] by simp] at this ⊢
      simp only [List.append_nil] at this ⊢
      rw [this]
      unfold split_words_aux
      have : (w.reverse).isEmpty = false := by
        simp [List.isEmpty_iff, hne]
      rw [this]
      simp
    | cons w' ws' =>
      obtain ⟨hne, hns⟩ := h w (List.mem_cons_self w (w' :: ws'))
      have hrest : ∀ x ∈ w' :: ws', x ≠ [] ∧ ∀ c ∈ x, isSpaceCode c = false :=
        fun x hx => h x (List.mem_cons_of_mem w hx)
      show split_words_aux (join_words (w :: w' :: ws')) [] = w :: w' :: ws'
      unfold join_words
      rw [split_words_aux_append_word w (32 :: join_words (w' :: ws')) [] hns]
      rw [split_words_aux_space]
      have : (w.reverse ++ []).isEmpty = false := by
        simp [List.isEmpty_iff, hne]
      rw [this]
      simp only [Bool.false_eq_true, if_false, List.append_nil, List.reverse_reverse]
      show w :: split_words (join_words (w' :: ws')) = w :: w' :: ws'
      rw [ih hrest]

theorem mem_join_words :
    ∀ (ws : List (List Nat)) (c : Nat), c ∈ join_words ws →
      c = 32 ∨ ∃ w ∈ ws, c ∈ w := by
  intro ws
  induction ws with
  | nil => intro c hc; simp [join_words] at hc
  | cons w ws ih =>
    intro c hc
    cases ws with
    | nil =>
      right
      exact ⟨w, List.mem_cons_self w [], by simpa [join_words] using hc⟩
    | cons w' ws' =>
      unfold join_words at hc
      rcases List.mem_append.mp hc with h | h
      · exact Or.inr ⟨w, List.mem_cons_self w _, h⟩
      · rcases List.mem_cons.mp h with h2 | h2
        · exact Or.inl h2
        · rcases ih c h2 with h3 | ⟨x, hx, hcx⟩
          · exact Or.inl h3
          · exact Or.inr ⟨x, List.mem_cons_of_mem w hx, hcx⟩

theorem mem_normalize_phrase (l : List Nat) (c : Nat)
    (hc : c ∈ normalize_phrase l) :
    keepCode c = true ∧ lowerCode c = c := by
  unfold normalize_phrase at hc
  rcases mem_join_words _ c hc with h | ⟨w, hw, hcw⟩
  · subst h
    exact ⟨keepCode_space, lowerCode_space⟩
  · rcases split_words_aux_subset _ [] w hw c hcw with h | h
    · rcases List.mem_map.mp h with ⟨c0, hc0, rfl⟩
      have hkeep : keepCode c0 = true := List.of_mem_filter hc0
      exact ⟨keepCode_lowerCode hkeep, lowerCode_idem c0⟩
    · simp at h

theorem filter_normalize_phrase (l : List Nat) :
    (normalize_phrase l).filter keepCode = normalize_phrase l :=
  List.filter_eq_self.mpr fun c hc => (mem_normalize_phrase l c hc).1

theorem map_lower_normalize_phrase (l : List Nat) :
    (normalize_phrase l).map lowerCode = normalize_phrase l := by
  have : ∀ c ∈ normalize_phrase l, lowerCode c = c :=
    fun c hc => (mem_normalize_phrase l c hc).2
  calc (normalize_phrase l).map lowerCode
      = (normalize_phrase l).map id := List.map_congr_left fun c hc => this c hc
    _ = normalize_phrase l := List.map_id _

/-- C7: the phrase normalization of `process_sst_data` (remove non-word,
non-whitespace characters, lowercase, collapse whitespace runs to single
spaces) is idempotent: normalizing an already-normalized phrase yields the
same string. -/
theorem normalize_phrase_idempotent (l : List Nat) :
    normalize_phrase (normalize_phrase l) = normalize_phrase l := by
  have hw : ∀ w ∈ split_words ((l.filter keepCode).map lowerCode),
      w ≠ [] ∧ ∀ c ∈ w, isSpaceCode c = false :=
    fun w hww => split_words_aux_sound _ [] (by simp) w hww
  show join_words (split_words (((normalize_phrase l).filter keepCode).map lowerCode))
      = normalize_phrase l
  rw [filter_normalize_phrase, map_lower_normalize_phrase]
  show join_words (split_words (join_words (split_words ((l.filter keepCode).map lowerCode))))
      = normalize_phrase l
  rw [split_join _ hw]
  rfl

/-- C3: the 3-way sentiment label is 0 for values at most 0.4, 1 for values
in (0.4, 0.6], and 2 for values above 0.6; the sentiment-exists label is 0
exactly on (0.4, 0.6] and 1 otherwise. -/
theorem sst_label_thresholds (v : ℚ) :
    (v ≤ 0.4 → calc_sst_sentiment_label v = 0) ∧
    (0.4 < v → v ≤ 0.6 → calc_sst_sentiment_label v = 1) ∧
    (0.6 < v → calc_sst_sentiment_label v = 2) ∧
    (0.4 < v → v ≤ 0.6 → calc_sst_sentiment_exists_label v = 0) ∧
    (¬ (0.4 < v ∧ v ≤ 0.6) → calc_sst_sentiment_exists_label v = 1) := by
  unfold calc_sst_sentiment_label calc_sst_sentiment_exists_label
  refine ⟨fun h => ?_, fun h1 h2 => ?_, fun h => ?_, fun h1 h2 => ?_, fun h => ?_⟩
  · rw [if_pos h]
  · rw [if_neg (by linarith), if_pos h2]
  · rw [if_neg (by linarith), if_neg (by linarith)]
  · rw [if_pos ⟨h1, h2⟩]
  · rw [if_neg h]

/-- C3 witness: the thresholds theorem evaluated at the concrete sentiment
values 0.3, 0.5 and 0.7. -/
theorem sst_label_thresholds_witness :
    calc_sst_sentiment_label 0.3 = 0 ∧
    calc_sst_sentiment_label 0.5 = 1 ∧
    calc_sst_sentiment_label 0.7 = 2 ∧
    calc_sst_sentiment_exists_label 0.5 = 0 ∧
    calc_sst_sentiment_exists_label 0.7 = 1 :=
  ⟨(sst_label_thresholds 0.3).1 (by norm_num),
   (sst_label_thresholds 0.5).2.1 (by norm_num) (by norm_num),
   (sst_label_thresholds 0.7).2.2.1 (by norm_num),
   (sst_label_thresholds 0.5).2.2.2.1 (by norm_num) (by norm_num),
   (sst_label_thresholds 0.7).2.2.2.2 (by norm_num)⟩

/-- C4 counterexample: at input value exactly 0.4, the 3-way label is 0
(not the claimed 1) and the sentiment-exists label is 1 (not the claimed 0). -/
theorem sst_boundary_claim_false :
    ¬ (calc_sst_sentiment_label 0.4 = 1 ∧ calc_sst_sentiment_exists_label 0.4 = 0) := by
  have h1 : calc_sst_sentiment_label 0.4 = 0 := by
    unfold calc_sst_sentiment_label
    rw [if_pos (by norm_num)]
  intro hc
  rw [h1] at hc
  exact absurd hc.1 (by norm_num)

/-- C4 amended: at input value exactly 0.4, the 3-way label takes the
negative branch (value ≤ 0.4, label 0) and the sentiment-exists label takes
the else branch (label 1), since 0.4 fails the strict lower bound. -/
theorem sst_boundary_amended :
    calc_sst_sentiment_label 0.4 = 0 ∧ calc_sst_sentiment_exists_label 0.4 = 1 := by
  constructor
  · unfold calc_sst_sentiment_label
    rw [if_pos (by norm_num)]
  · unfold calc_sst_sentiment_exists_label
    rw [if_neg (by norm_num)]

end ParseSst

namespace ParseSocc

/-- C8: the article cleanup maps the codepoints of `<p>Hello</p> World!` to
those of `Hello  World` (two spaces between the words): the opening
paragraph tag is removed with no replacement, the closing tag is replaced
by a single space, then all punctuation characters are deleted. -/
theorem clean_article_text_sample :
    clean_article_text soccSampleInput = soccSampleOutput := by decide

end ParseSocc

namespace Db

/-- C9 counterexample: on the exit path where the table write raises, none
of the three save functions executes a close on the connection it opened,
so the connection is not released on all exit paths. -/
theorem save_connection_leak :
    ((ParseSst.save_phrases_run false).1.count DbOp.close = 0 ∧
     (ParseRestaurant.save_reviews_run false).1.count DbOp.close = 0 ∧
     (ParseSemeval.save_opinion_data_run false).1.count DbOp.close = 0) ∧
    ((ParseSst.save_phrases_run false).1.count DbOp.connect = 1 ∧
     (ParseRestaurant.save_reviews_run false).1.count DbOp.connect = 1 ∧
     (ParseSemeval.save_opinion_data_run false).1.count DbOp.connect = 1) := by
  decide

/-- C9 amended: each save function closes its connection exactly once on
the successful path (after the commit), but on the path where the table
write raises the already-opened connection is never closed. -/
theorem save_connection_scoping (b : Bool) :
    ((ParseSst.save_phrases_run b).1.count DbOp.close = if b then 1 else 0) ∧
    ((ParseRestaurant.save_reviews_run b).1.count DbOp.close = if b then 1 else 0) ∧
    ((ParseSemeval.save_opinion_data_run b).1.count DbOp.close = if b then 1 else 0) ∧
    (ParseSst.save_phrases_run b).1.count DbOp.connect = 1 := by
  cases b <;> decide

end Db

theorem mapExcept_length {α β : Type} (f : α → Except PyErr β) :
    ∀ (l : List α) (ys : List β), mapExcept f l = Except.ok ys → ys.length = l.length := by
  intro l
  induction l with
  | nil =>
    intro ys h
    simp only [mapExcept] at h
    cases h
    rfl
  | cons a rest ih =>
    intro ys h
    simp only [mapExcept] at h
    split at h
    · cases h
    · split at h
      · cases h
      · rename_i b _ bs hrest
        cases h
        simp [ih bs hrest]

theorem mapExcept_forall2 {α β : Type} (f : α → Except PyErr β) :
    ∀ (l : List α) (ys : List β), mapExcept f l = Except.ok ys →
      List.Forall₂ (fun a b => f a = Except.ok b) l ys := by
  intro l
  induction l with
  | nil =>
    intro ys h
    simp only [mapExcept] at h
    cases h
    exact List.Forall₂.nil
  | cons a rest ih =>
    intro ys h
    cases hfa : f a with
    | error e =>
      rw [mapExcept, hfa] at h
      cases h
    | ok b =>
      cases hrest : mapExcept f rest with
      | error e =>
        rw [mapExcept, hfa, hrest] at h
        cases h
      | ok bs =>
        simp only [mapExcept, hfa, hrest] at h
        cases h
        exact List.Forall₂.cons hfa (ih bs hrest)

theorem mapExcept_mem_right {α β : Type} (f : α → Except PyErr β) :
    ∀ (l : List α) (ys : List β), mapExcept f l = Except.ok ys →
      ∀ b ∈ ys, ∃ a ∈ l, f a = Except.ok b := by
  intro l
  induction l with
  | nil =>
    intro ys h b hb
    simp only [mapExcept] at h
    cases h
    cases hb
  | cons a rest ih =>
    intro ys h b hb
    cases hfa : f a with
    | error e =>
      rw [mapExcept, hfa] at h
      cases h
    | ok b0 =>
      cases hrest : mapExcept f rest with
      | error e =>
        rw [mapExcept, hfa, hrest] at h
        cases h
      | ok bs =>
        simp only [mapExcept, hfa, hrest] at h
        cases h
        rcases List.mem_cons.mp hb with hb0 | hbs
        · exact ⟨a, List.mem_cons_self a rest, hb0 ▸ hfa⟩
        · rcases ih bs hrest b hbs with ⟨a2, ha2, hfa2⟩
          exact ⟨a2, List.mem_cons_of_mem a ha2, hfa2⟩

theorem map_eq_of_forall2 {α β : Type} {P : α → β → Prop} {g : β → Nat} {f : α → Nat} :
    ∀ {l : List α} {ys : List β}, List.Forall₂ P l ys →
      (∀ a b, P a b → g b = f a) → ys.map g = l.map f := by
  intro l ys hf hgf
  induction hf with
  | nil => rfl
  | cons hab _ ih => simp [hgf _ _ hab, ih]

namespace ParseRestaurant

/-- C5: when restaurant-corpus extraction succeeds, the review table has
exactly one row per direct child of each input file's reviews container:
its row count is the sum over the input files of those child counts. -/
theorem extract_all_review_data_count (xml_data : List (RXml × String × String))
    (rows : List ReviewRow)
    (h : extract_all_review_data xml_data = Except.ok rows) :
    rows.length = (xml_data.map (fun d => d.1.children.length)).sum := by
  unfold extract_all_review_data at h
  split at h
  · cases h
  · rename_i a l
    split at h
    · cases h
    · rename_i tables htab
      cases h
      have hf2 := mapExcept_forall2 extract_review_data (a :: l) tables htab
      have hlen : ∀ (d : RXml × String × String) (t : List ReviewRow),
          extract_review_data d = Except.ok t → t.length = d.1.children.length := by
        intro d t hdt
        exact mapExcept_length _ _ _ hdt
      calc tables.flatten.length
          = (tables.map List.length).sum := by simp [List.length_flatten]
        _ = ((a :: l).map (fun d => d.1.children.length)).sum := by
            rw [map_eq_of_forall2 hf2 hlen]

/-- C5 witness: the count theorem applied to a single file with id R1, name
Cafe and two review elements: exactly 2 review rows, both with id R1. -/
theorem extract_all_review_data_count_witness :
    cafeRows.length = ([cafeFile].map (fun d => d.1.children.length)).sum ∧
    cafeRows.length = 2 ∧
    cafeRows.all (fun r => r.id == ("R1")) = true :=
  ⟨extract_all_review_data_count [cafeFile] cafeRows (by rfl), by rfl, by rfl⟩

theorem dedup_mem_iff :
    ∀ (l : List (String × String)) (seen : List String) (x : String),
      x ∈ (dedup_by_id_aux seen l).map Prod.fst ↔ x ∈ l.map Prod.fst ∧ x ∉ seen := by
  intro l
  induction l with
  | nil => intro seen x; simp [dedup_by_id_aux]
  | cons r rest ih =>
    intro seen x
    simp only [dedup_by_id_aux]
    split
    · rename_i hin
      rw [ih seen x, List.map_cons, List.mem_cons]
      by_cases hxr : x = r.1
      · subst hxr; tauto
      · tauto
    · rename_i hnin
      rw [List.map_cons, List.mem_cons, List.map_cons, List.mem_cons,
        ih (r.1 :: seen) x, List.mem_cons]
      by_cases hxr : x = r.1
      · subst hxr; tauto
      · tauto

theorem dedup_nodup :
    ∀ (l : List (String × String)) (seen : List String),
      ((dedup_by_id_aux seen l).map Prod.fst).Nodup := by
  intro l
  induction l with
  | nil => intro seen; simp [dedup_by_id_aux]
  | cons r rest ih =>
    intro seen
    simp only [dedup_by_id_aux]
    split
    · exact ih seen
    · simp only [List.map_cons, List.nodup_cons]
      refine ⟨?_, ih (r.1 :: seen)⟩
      intro hmem
      exact ((dedup_mem_iff rest (r.1 :: seen) r.1).mp hmem).2 (List.mem_cons_self _ _)

/-- C6: the restaurants table built by save_restaurants has at most one row
per restaurant identifier, and every identifier appearing in the reviews
table written by save_reviews appears in the restaurants table. -/
theorem restaurants_table_invariant (rows : List ReviewRow) :
    ((restaurants_table rows).map Prod.fst).Nodup ∧
    ∀ i ∈ reviews_table_ids rows, i ∈ (restaurants_table rows).map Prod.fst := by
  constructor
  · exact dedup_nodup _ []
  · intro i hi
    rcases List.mem_map.mp hi with ⟨r, hr, rfl⟩
    refine (dedup_mem_iff _ [] r.id).mpr ⟨?_, by simp⟩
    exact List.mem_map.mpr ⟨(r.id, r.restaurant_name), List.mem_map.mpr ⟨r, hr, rfl⟩, rfl⟩

/-- C6 witness: the invariant applied to three concrete rows over two
restaurants, with the membership hypothesis discharged for id A. -/
theorem restaurants_table_invariant_witness :
    ((restaurants_table demoRestaurantRows).map Prod.fst).Nodup ∧
    ("A") ∈ (restaurants_table demoRestaurantRows).map Prod.fst :=
  ⟨(restaurants_table_invariant demoRestaurantRows).1,
   (restaurants_table_invariant demoRestaurantRows).2 ("A") (by decide)⟩

end ParseRestaurant

namespace ParseSemeval

theorem extract_opinions_ne_nil (ops : List XElem) (rows : List OpinionRow)
    (h : extract_opinions ops = Except.ok rows) : rows ≠ [] := by
  cases ops with
  | nil =>
    simp only [extract_opinions] at h
    cases h
  | cons o rest =>
    have hlen := mapExcept_length _ _ _ (by simpa [extract_opinions] using h)
    intro hnil
    rw [hnil] at hlen
    simp at hlen

theorem extract_sentences_spec :
    ∀ (l : List XElem) (rows : List (Option String × List OpinionRow)),
      extract_sentences l = Except.ok rows →
      rows.map Prod.fst
        = (l.filter (fun r => decide (2 ≤ r.children.length))).map
            (fun r => (r.children.head?).bind XElem.text) ∧
      ∀ p ∈ rows, p.2 ≠ [] := by
  intro l
  induction l with
  | nil =>
    intro rows h
    simp only [extract_sentences] at h
    cases h
    simp
  | cons r rest ih =>
    intro rows h
    cases hch : r.children with
    | nil =>
      simp only [extract_sentences, hch] at h
      obtain ⟨h1, h2⟩ := ih rows h
      refine ⟨?_, h2⟩
      rw [List.filter_cons]
      simp [hch, h1]
    | cons c0 cs0 =>
      cases cs0 with
      | nil =>
        simp only [extract_sentences, hch] at h
        obtain ⟨h1, h2⟩ := ih rows h
        refine ⟨?_, h2⟩
        rw [List.filter_cons]
        simp [hch, h1]
      | cons c1 cs =>
        simp only [extract_sentences, hch] at h
        cases hop : extract_opinions c1.children with
        | error e =>
          rw [hop] at h
          cases h
        | ok ops =>
          rw [hop] at h
          cases hrest : extract_sentences rest with
          | error e =>
            rw [hrest] at h
            cases h
          | ok tail =>
            rw [hrest] at h
            cases h
            obtain ⟨h1, h2⟩ := ih tail hrest
            constructor
            · rw [List.filter_cons]
              have hp : decide (2 ≤ r.children.length) = true := by
                simp [hch]
              rw [hp]
              simp only [if_true, List.map_cons, List.map_cons]
              rw [hch]
              simp [h1]
            · intro p hp
              rcases List.mem_cons.mp hp with rfl | hptail
              · exact extract_opinions_ne_nil c1.children ops hop
              · exact h2 p hptail

/-- C1 counterexample: an input element containing a record whose opinions
container has exactly one child element is not excluded: extraction keeps
the record in the review table and flattening emits its single opinion
row into the opinion table. -/
theorem one_child_record_retained :
    extract_all_data [demoElemOne] = Except.ok demoReviews ∧
    flatten_dataframe demoReviews = Except.ok demoFlat ∧
    demoReviews.length = 1 ∧ demoFlat.length = 1 :=
  ⟨rfl, rfl, rfl, rfl⟩

/-- C1 amended: the exclusion test of `_extract_data` is on the child count
of the contained record (sentence) element itself, not of its opinions
container: when extraction of an element succeeds, the review table keeps
exactly the records having at least two children, in order and with their
texts, and only the records with at most one child are excluded. -/
theorem extract_data_keeps_two_child_records (t : Option String)
    (a : List (String × String)) (sc : XElem) (rest : List XElem)
    (rows : List (Option String × List OpinionRow))
    (h : extract_data (XElem.mk t a (sc :: rest)) = Except.ok rows) :
    rows.map Prod.fst
      = (sc.children.filter (fun r => decide (2 ≤ r.children.length))).map
          (fun r => (r.children.head?).bind XElem.text) ∧
    rows.length
      = (sc.children.filter (fun r => decide (2 ≤ r.children.length))).length := by
  have hs : extract_sentences sc.children = Except.ok rows := by
    simpa [extract_data, XElem.children] using h
  obtain ⟨h1, _⟩ := extract_sentences_spec sc.children rows hs
  refine ⟨h1, ?_⟩
  have h2 := congrArg List.length h1
  simpa using h2

/-- C1 amended witness: the retention theorem applied to the sample
element whose single record has two children. -/
theorem extract_data_keeps_two_child_records_witness :
    demoReviews.map Prod.fst
      = ((XElem.mk none [] [demoSentenceOne]).children.filter
          (fun r => decide (2 ≤ r.children.length))).map
          (fun r => (r.children.head?).bind XElem.text) ∧
    demoReviews.length
      = ((XElem.mk none [] [demoSentenceOne]).children.filter
          (fun r => decide (2 ≤ r.children.length))).length :=
  extract_data_keeps_two_child_records none [] (XElem.mk none [] [demoSentenceOne]) []
    demoReviews (by rfl)

theorem extract_sentences_error_of_empty_opinions :
    ∀ (l : List XElem) (r : XElem), r ∈ l →
      ∀ (c0 c1 : XElem) (cs : List XElem),
        r.children = c0 :: c1 :: cs → c1.children = [] →
        ∃ e, extract_sentences l = Except.error e := by
  intro l
  induction l with
  | nil =>
    intro r hr
    cases hr
  | cons x rest ih =>
    intro r hr c0 c1 cs hch hemp
    rcases List.mem_cons.mp hr with rfl | hr2
    · have hop : extract_opinions c1.children = Except.error PyErr.keyError := by
        rw [hemp]
        rfl
      refine ⟨PyErr.keyError, ?_⟩
      simp only [extract_sentences, hch, hop]
    · rcases ih r hr2 c0 c1 cs hch hemp with ⟨e, he⟩
      cases hxch : x.children with
      | nil =>
        refine ⟨e, ?_⟩
        simp only [extract_sentences, hxch]
        exact he
      | cons d ds =>
        cases ds with
        | nil =>
          refine ⟨e, ?_⟩
          simp only [extract_sentences, hxch]
          exact he
        | cons d1 ds2 =>
          cases hop : extract_opinions d1.children with
          | error e2 =>
            refine ⟨e2, ?_⟩
            simp only [extract_sentences, hxch, hop]
          | ok ops =>
            refine ⟨e, ?_⟩
            simp only [extract_sentences, hxch, hop, he]

/-- C10: the skip test of `_extract_data` examines the number of children
of the sentence element itself, not of its opinions container: an element
containing a sentence with at least two children whose second child (the
opinions container) has zero children is retained rather than skipped, and
its extraction raises an error (the empty opinion DataFrame has no from
column) instead of succeeding with zero opinion rows. -/
theorem empty_opinions_container_raises (t : Option String)
    (a : List (String × String)) (sc : XElem) (rest : List XElem)
    (r c0 c1 : XElem) (cs : List XElem)
    (hr : r ∈ sc.children) (hch : r.children = c0 :: c1 :: cs)
    (hemp : c1.children = []) :
    pySucceeds (extract_data (XElem.mk t a (sc :: rest))) = false := by
  rcases extract_sentences_error_of_empty_opinions sc.children r hr c0 c1 cs hch hemp
    with ⟨e, he⟩
  have hd : extract_data (XElem.mk t a (sc :: rest)) = extract_sentences sc.children := rfl
  rw [hd, he]
  rfl

/-- C10 witness: the error theorem applied to the sample element whose
sentence has a text child and an empty opinions container. -/
theorem empty_opinions_container_raises_witness :
    pySucceeds (extract_data demoElemEmptyOps) = false :=
  empty_opinions_container_raises none [] (XElem.mk none [] [demoSentenceEmptyOps]) []
    demoSentenceEmptyOps demoTextElem (XElem.mk none [] []) []
    (List.mem_cons_self _ _) rfl rfl

theorem flatten_aux_bound :
    ∀ (df : List (Option String × List OpinionRow)) (i0 : Nat) (row : FlatOpinionRow),
      row ∈ flatten_aux i0 df → row.review_idx < i0 + df.length := by
  intro df
  induction df with
  | nil =>
    intro i0 row h
    simp [flatten_aux] at h
  | cons p rest ih =>
    intro i0 row h
    simp only [flatten_aux, List.mem_append] at h
    rcases h with h | h
    · rcases List.mem_map.mp h with ⟨o, _, rfl⟩
      simp only [List.length_cons]
      omega
    · have h2 := ih (i0 + 1) row h
      simp only [List.length_cons]
      omega

theorem flatten_aux_covers :
    ∀ (df : List (Option String × List OpinionRow)) (i0 j : Nat) (hj : j < df.length),
      (df.get ⟨j, hj⟩).2 ≠ [] →
      ∃ row ∈ flatten_aux i0 df, row.review_idx = i0 + j := by
  intro df
  induction df with
  | nil =>
    intro i0 j hj
    exact absurd hj (Nat.not_lt_zero j)
  | cons p rest ih =>
    intro i0 j hj hne
    cases j with
    | zero =>
      have hne2 : p.2 ≠ [] := hne
      rcases List.exists_mem_of_ne_nil p.2 hne2 with ⟨o, ho⟩
      refine ⟨{ attrib := o.attrib, fromCol := o.fromCol, toCol := o.toCol, review_idx := i0 }, ?_, by simp⟩
      simp only [flatten_aux, List.mem_append]
      exact Or.inl (List.mem_map_of_mem _ ho)
    | succ j2 =>
      have hj2 : j2 < rest.length := by
        simpa [List.length_cons, Nat.succ_lt_succ_iff] using hj
      have hne2 : (rest.get ⟨j2, hj2⟩).2 ≠ [] := hne
      rcases ih (i0 + 1) j2 hj2 hne2 with ⟨row, hmem, hidx⟩
      refine ⟨row, ?_, by omega⟩
      simp only [flatten_aux, List.mem_append]
      exact Or.inr hmem

theorem extract_all_data_opinions_ne_nil (elems : List XElem)
    (reviews : List (Option String × List OpinionRow))
    (h : extract_all_data elems = Except.ok reviews) :
    ∀ p ∈ reviews, p.2 ≠ [] := by
  intro p hp
  cases elems with
  | nil =>
    simp only [extract_all_data] at h
    cases h
  | cons e0 es =>
    cases hmap : mapExcept extract_data (e0 :: es) with
    | error e2 =>
      simp only [extract_all_data, hmap] at h
      cases h
    | ok dfs =>
      simp only [extract_all_data, hmap] at h
      cases h
      rcases List.mem_flatten.mp hp with ⟨df, hdf, hpdf⟩
      rcases mapExcept_mem_right _ _ _ hmap df hdf with ⟨el, _, hel⟩
      cases hch : el.children with
      | nil =>
        rw [extract_data, hch] at hel
        cases hel
      | cons sc rest2 =>
        rw [extract_data, hch] at hel
        exact (extract_sentences_spec sc.children df hel).2 p hpdf

/-- C2: after flattening, every row of the flattened opinion table carries
a review_idx that is a valid 0-based position into the surviving review
sequence, and every surviving review has at least one opinion row
referencing it. -/
theorem flatten_review_idx_valid (elems : List XElem)
    (reviews : List (Option String × List OpinionRow))
    (flat : List FlatOpinionRow)
    (hex : extract_all_data elems = Except.ok reviews)
    (hfl : flatten_dataframe reviews = Except.ok flat) :
    (∀ row ∈ flat, row.review_idx < reviews.length) ∧
    (∀ i < reviews.length, ∃ row ∈ flat, row.review_idx = i) := by
  have hflat : flat = flatten_aux 0 reviews := by
    cases reviews with
    | nil =>
      simp only [flatten_dataframe] at hfl
      cases hfl
    | cons p rest =>
      simp only [flatten_dataframe] at hfl
      cases hfl
      rfl
  subst hflat
  constructor
  · intro row hrow
    have hb := flatten_aux_bound reviews 0 row hrow
    simpa using hb
  · intro i hi
    have hne := extract_all_data_opinions_ne_nil elems reviews hex
    have hget : (reviews.get ⟨i, hi⟩).2 ≠ [] :=
      hne (reviews.get ⟨i, hi⟩) (reviews.get_mem i hi)
    rcases flatten_aux_covers reviews 0 i hi hget with ⟨row, hmem, hidx⟩
    exact ⟨row, hmem, by simpa using hidx⟩

/-- C2 witness: the back-reference invariant applied to the sample element,
checked on its one flattened opinion row. -/
theorem flatten_review_idx_valid_witness :
    demoFlatRow.review_idx < demoReviews.length :=
  (flatten_review_idx_valid [demoElemOne] demoReviews demoFlat rfl rfl).1
    demoFlatRow (List.mem_cons_self _ _)

end ParseSemeval
